import Mathlib

/-!
# Verification of the rotatefile rolling-logger core

A shallow embedding of the rotation state machine, backup-naming codec,
retention ("mill") engine and compressor of the rotatefile package
(src/rotatefile.go, src/config.go), with theorems checking the
natural-language specification against it.

The repository carries two parallel implementations of the same logic:
the lower-case `file` type (backed by `Config` from config.go) and the
upper-case `File` type.  Where the two differ we embed both variants;
names carry a `V2` suffix for the `File` variant.

Modelling conventions:
* Go `int64`/`int` values are embedded as `Int`, `uint64` sizes as `Nat`;
  the one place a `uint64(int64)` conversion occurs is modelled explicitly.
* Filenames are byte lists (`List Nat`), matching Go strings.
* Filesystem effects are made explicit: the state a `file` owns (handle,
  size counter, active file on disk, set of backups) is a record, and
  fallible per-item OS calls (close, remove, the compressor steps) are
  driven by explicit outcome parameters, so that both success and failure
  paths of the source are represented.
-/

namespace Rotatefile

/-- `defaultMaxSize` from config.go: `100 * 1024 * 1024` bytes (100 MiB). -/
def defaultMaxSize : Nat := 100 * 1024 * 1024

/-- `file.max` / `File.max` from rotatefile.go: the rotation threshold in
bytes; a configured `MaxSize` of 0 means the built-in default. -/
def maxBytes (maxSize : Nat) : Int :=
  if maxSize = 0 then (defaultMaxSize : Int) else (maxSize : Int)

/-- The state a rotation controller owns: the Go fields `l.file` (as
`handleOpen`), `l.size`, plus the part of the filesystem it manipulates:
the size of the file currently on disk at the configured path (`none` if
absent) and the sizes of the backup files produced by renames (most
recent first).  `milled` records that the mill engine has been notified. -/
structure RState where
  handleOpen : Bool
  size : Int
  active : Option Int
  backups : List Int
  milled : Bool
deriving Repr, DecidableEq

/-- `file.close`: if a handle is open, close it (the OS outcome is the
`closeErr` parameter) and set `l.file = nil` — Go clears the field even
when `Close` fails; with no handle it returns nil and changes nothing. -/
def closeFile (closeErr : Bool) (s : RState) : Option String × RState :=
  if s.handleOpen then
    ((if closeErr then some "close failed" else none), { s with handleOpen := false })
  else
    (none, s)

/-- `file.openNew`: if a file exists at the configured path, rename it to
a timestamped backup (its size joins `backups`), then create a fresh
empty file there, set the handle and reset the size counter to 0.
`MkdirAll`, `Rename` and `OpenFile` are modelled as succeeding. -/
def openNew (s : RState) : RState :=
  match s.active with
  | some sz =>
      { handleOpen := true, size := 0, active := some 0,
        backups := sz :: s.backups, milled := s.milled }
  | none =>
      { handleOpen := true, size := 0, active := some 0,
        backups := s.backups, milled := s.milled }

/-- `file.mill`: notify the mill engine (non-blocking channel send). -/
def notifyMill (s : RState) : RState := { s with milled := true }

/-- `file.rotate`: close the current file, move it aside via `openNew`,
then notify the mill engine.  A close failure aborts the rotation. -/
def rotate (closeErr : Bool) (s : RState) : Option String × RState :=
  match closeFile closeErr s with
  | (some e, s1) => (some e, s1)
  | (none, s1) => (none, notifyMill (openNew s1))

/-- `file.openExistingOrNew`: notify the mill, stat the path; absent →
`openNew`; present and `size + writeLen >= max` → rotate; otherwise open
for append, adopting the on-disk size as the counter. -/
def openExistingOrNew (maxSize : Nat) (closeErr : Bool) (s : RState)
    (writeLen : Nat) : Option String × RState :=
  let s1 := notifyMill s
  match s1.active with
  | none => (none, openNew s1)
  | some sz =>
      if maxBytes maxSize ≤ sz + (writeLen : Int) then rotate closeErr s1
      else (none, { s1 with handleOpen := true, size := sz })

/-- `file.writeInternal`: reject a write larger than the threshold
before touching any state; otherwise open the file if needed, rotate
first when the write would push the size counter over the threshold,
then append the whole payload.  (The `PrintTerm` echo to stdout is
outside the owned state and not modelled.)  The `File` variant's `Write`
wraps this same check/open/rotate/append sequence behind its
`CopyWriter` mirror branch: see `WriteV2`. -/
def writeInternal (maxSize : Nat) (closeErr : Bool) (s : RState) (p : Nat) :
    Except String Nat × RState :=
  let writeLen : Int := (p : Int)
  if maxBytes maxSize < writeLen then
    (.error "write length exceeds maximum file size", s)
  else
    let r1 := if s.handleOpen then (none, s) else openExistingOrNew maxSize closeErr s p
    match r1 with
    | (some e, s1) => (.error e, s1)
    | (none, s1) =>
        let r2 := if maxBytes maxSize < s1.size + writeLen then rotate closeErr s1
                  else (none, s1)
        match r2 with
        | (some e, s2) => (.error e, s2)
        | (none, s2) =>
            (.ok p, { s2 with size := s2.size + writeLen,
                              active := s2.active.map (fun a => a + writeLen) })

/-- `File.Write`: its body starts with
`if l.CopyWriter != nil { l.Write(p) }` — a call to the method itself,
not to the copy writer — placed before the mutex and the length check,
so with a copy writer set the method recurses unconditionally.  `fuel`
bounds the depth of nested self-calls; `none` means the call has not
returned within that depth (the mirrored call's return value is
discarded, its state threads through).  Without a copy writer the body
is the same sequence as `writeInternal`. -/
def WriteV2 (copyW : Bool) (maxSize : Nat) (closeErr : Bool) (p : Nat) :
    Nat → RState → Option (Except String Nat × RState)
  | 0, _ => none
  | fuel + 1, s =>
      if copyW then
        match WriteV2 copyW maxSize closeErr p fuel s with
        | none => none
        | some r => some (writeInternal maxSize closeErr r.2 p)
      else some (writeInternal maxSize closeErr s p)

end Rotatefile

namespace Rotatefile

/-! ## Backup naming codec

`backupName`, `file.prefixAndExt` and `file.timeFromName`, together with
the fixed layout `20060102T150405.000` of `time.Format`/`time.Parse`.
Go strings are byte lists; wall-clock times are modelled at the
millisecond granularity the layout carries. -/

/-- A Go string, as its byte values. -/
abbrev Bytes := List Nat

/-- The byte of the character dot. -/
def dotByte : Nat := 46

/-- The byte of the capital letter T. -/
def tByte : Nat := 84

/-- Whether a byte is an ASCII digit (`isDigit` inside Go parsing). -/
def isDigitByte (b : Nat) : Bool := 48 ≤ b && b ≤ 57

/-- The digit byte for a value below 10. -/
def digitByte (n : Nat) : Nat := 48 + n

/-- The value of a digit byte. -/
def byteVal (b : Nat) : Nat := b - 48

/-- Two-digit zero-padded decimal rendering (layout items 01, 02, 15, 04, 05). -/
def pad2 (n : Nat) : Bytes := [digitByte (n / 10 % 10), digitByte (n % 10)]

/-- Three-digit zero-padded rendering (the .000 fractional seconds). -/
def pad3 (n : Nat) : Bytes :=
  [digitByte (n / 100 % 10), digitByte (n / 10 % 10), digitByte (n % 10)]

/-- Four-digit zero-padded rendering (the 2006 year item). -/
def pad4 (n : Nat) : Bytes :=
  [digitByte (n / 1000 % 10), digitByte (n / 100 % 10),
   digitByte (n / 10 % 10), digitByte (n % 10)]

/-- A wall-clock instant at millisecond granularity: exactly the fields
the backup timestamp format carries. -/
structure DateTime where
  year : Nat
  month : Nat
  day : Nat
  hour : Nat
  minute : Nat
  sec : Nat
  millis : Nat
deriving Repr, DecidableEq

/-- Gregorian leap-year rule used by Go's date validation. -/
def isLeapYear (y : Nat) : Bool := (y % 4 == 0 && y % 100 != 0) || y % 400 == 0

/-- Days in a month, as Go's `daysIn`. -/
def daysInMonth (y m : Nat) : Nat :=
  if m = 2 then (if isLeapYear y then 29 else 28)
  else if m = 4 ∨ m = 6 ∨ m = 9 ∨ m = 11 then 30
  else 31

/-- The field ranges `time.Parse` accepts (and within which `Format`
round-trips): exactly the values the 19-byte layout can carry. -/
def DateTime.Valid (t : DateTime) : Prop :=
  t.year ≤ 9999 ∧ 1 ≤ t.month ∧ t.month ≤ 12 ∧ 1 ≤ t.day ∧
  t.day ≤ daysInMonth t.year t.month ∧
  t.hour ≤ 23 ∧ t.minute ≤ 59 ∧ t.sec ≤ 59 ∧ t.millis ≤ 999

instance : DecidablePred DateTime.Valid := fun t => by
  unfold DateTime.Valid; infer_instance

/-- `t.Format("20060102T150405.000")`. -/
def formatTs (t : DateTime) : Bytes :=
  pad4 t.year ++ pad2 t.month ++ pad2 t.day ++ [tByte] ++
  pad2 t.hour ++ pad2 t.minute ++ pad2 t.sec ++ [dotByte] ++ pad3 t.millis

/-- The `backupTimeFormat` layout string, as bytes; only its length (19)
is consulted by `timeFromName`. -/
def backupTimeFormat : Bytes :=
  [50, 48, 48, 54, 48, 49, 48, 50, 84, 49, 53, 48, 52, 48, 53, 46, 48, 48, 48]

/-- Fixed two-digit number item of Go's parser (`getnum` with `fixed`). -/
def num2 : Bytes → Option (Nat × Bytes)
  | a :: b :: r =>
      if isDigitByte a && isDigitByte b then some (byteVal a * 10 + byteVal b, r)
      else none
  | _ => none

/-- Three fractional-second digits after the dot. -/
def num3 : Bytes → Option (Nat × Bytes)
  | a :: b :: c :: r =>
      if isDigitByte a && isDigitByte b && isDigitByte c then
        some ((byteVal a * 10 + byteVal b) * 10 + byteVal c, r)
      else none
  | _ => none

/-- Four-digit year item. -/
def num4 : Bytes → Option (Nat × Bytes)
  | a :: b :: c :: d :: r =>
      if isDigitByte a && isDigitByte b && isDigitByte c && isDigitByte d then
        some (((byteVal a * 10 + byteVal b) * 10 + byteVal c) * 10 + byteVal d, r)
      else none
  | _ => none

/-- A literal layout byte. -/
def litByte (x : Nat) : Bytes → Option Bytes
  | b :: r => if b = x then some r else none
  | [] => none

/-- `time.Parse("20060102T150405.000", ts)`: fixed-width items, a
trailing-garbage check, and Go's range validation of every field. -/
def parseTs (cs : Bytes) : Option DateTime := do
  let (y, r1) ← num4 cs
  let (mo, r2) ← num2 r1
  let (d, r3) ← num2 r2
  let r4 ← litByte tByte r3
  let (h, r5) ← num2 r4
  let (mi, r6) ← num2 r5
  let (s, r7) ← num2 r6
  let r8 ← litByte dotByte r7
  let (ms, r9) ← num3 r8
  if r9 = [] ∧ 1 ≤ mo ∧ mo ≤ 12 ∧ 1 ≤ d ∧ d ≤ daysInMonth y mo ∧
     h ≤ 23 ∧ mi ≤ 59 ∧ s ≤ 59 then
    pure ⟨y, mo, d, h, mi, s, ms⟩
  else none

/-- `file.timeFromName`: strip the extension suffix and the prefix,
require an exactly `len(backupTimeFormat)`-byte remainder, and parse it;
any suffix, prefix, length or parse mismatch fails. -/
def timeFromName (filename pfx ext : Bytes) : Option DateTime :=
  if ¬ ext.isSuffixOf filename then none
  else
    let f1 := filename.take (filename.length - ext.length)
    if ¬ pfx.isPrefixOf f1 then none
    else
      let ts := f1.drop pfx.length
      if ts.length ≠ backupTimeFormat.length then none
      else parseTs ts

/-- `filepath.Ext` of a base filename: the suffix starting at the last
dot, empty if there is none. -/
def fileExt (name : Bytes) : Bytes :=
  if dotByte ∈ name then
    dotByte :: (name.reverse.takeWhile (fun c => c ≠ dotByte)).reverse
  else []

/-- The filename with its extension removed. -/
def stemOf (name : Bytes) : Bytes := name.take (name.length - (fileExt name).length)

/-- `backupName` (the directory part, unchanged by the function, is
elided): `fmt.Sprintf("%s.%s%s", prefix, timestamp, ext)` where prefix
is the stem of the base filename. -/
def backupName (name : Bytes) (t : DateTime) : Bytes :=
  stemOf name ++ [dotByte] ++ formatTs t ++ fileExt name

/-- `file.prefixAndExt`: the prefix handed to `timeFromName` is the stem
plus a dot. -/
def preOf (name : Bytes) : Bytes := stemOf name ++ [dotByte]

end Rotatefile

namespace Rotatefile

/-! ## Retention (mill) engine

`millRunOnce`, its count-cap/age-cap/compression candidate selection,
the per-item apply loops, and both variants of `keepTotalSizeCap`.
Directory scans and the free-space probe are IO, so the scan results and
the probed free space are inputs; per-item `os.Remove`/compression
outcomes are given by oracle functions. -/

/-- `logInfo`: one scanned backup.  `ts` is the timestamp decoded from
the name (an instant, in nanoseconds as `time.Time` compares them),
`size` the file size at scan time, `gz` whether the name carries the
`.gz` suffix.  A backup's name is `prefix ++ formatTs ++ ext` optionally
followed by ".gz"; as the codec is injective (see `codec_roundtrip`),
the `.gz`-stripped name that `millRunOnce` uses as its dedup key is in
bijection with `ts`, so `ts` stands for that key here. -/
structure LogInfo where
  ts : Int
  size : Nat
  gz : Bool
deriving Repr, DecidableEq

/-- Nanoseconds in `24 * time.Hour`. -/
def nsPerDay : Int := 86400000000000

/-- The `MaxBackups` marking loop of `millRunOnce`: walk the newest-first
scan list; insert each entry's `.gz`-stripped name into the `preserved`
set; once the set holds more than `maxB` distinct names, the entry goes
to the remove list, else to the remaining list. -/
def markBackups (maxB : Nat) (preserved : List Int) :
    List LogInfo → List LogInfo × List LogInfo
  | [] => ([], [])
  | f :: rest =>
      let p2 := if f.ts ∈ preserved then preserved else f.ts :: preserved
      let r := markBackups maxB p2 rest
      if maxB < p2.length then (f :: r.1, r.2) else (r.1, f :: r.2)

/-- The count-cap phase with its guard
`l.MaxBackups > 0 && l.MaxBackups < len(files)`. -/
def maxBackupsPhase (maxB : Nat) (files : List LogInfo) :
    List LogInfo × List LogInfo :=
  if 0 < maxB ∧ maxB < files.length then markBackups maxB [] files
  else ([], files)

/-- The age-cap phase: with `MaxDays > 0`, every entry whose timestamp is
before `now - MaxDays*24h` moves to the remove list. -/
def maxDaysPhase (maxD : Nat) (now : Int) (files : List LogInfo) :
    List LogInfo × List LogInfo :=
  if 0 < maxD then
    let cutoff := now - (maxD : Int) * nsPerDay
    (files.filter (fun f => f.ts < cutoff), files.filter (fun f => ¬ f.ts < cutoff))
  else ([], files)

/-- One per-item apply loop of `millRunOnce` (removals, compressions):
visits every item, runs its OS operation (the oracle), and keeps the
first error (`if err == nil && errItem != nil { err = errItem }`).
Returns the final error and the successfully processed items in order. -/
def runOps (oracle : LogInfo → Option String) (err0 : Option String) :
    List LogInfo → Option String × List LogInfo
  | [] => (err0, [])
  | f :: rest =>
      let e := oracle f
      let err1 := if err0 = none ∧ e ≠ none then e else err0
      let r := runOps oracle err1 rest
      (r.1, (if e = none then [f] else []) ++ r.2)

/-- The first error in a list of per-item outcomes. -/
def firstSome : List (Option String) → Option String
  | [] => none
  | none :: rest => firstSome rest
  | some e :: _ => some e

/-- Go's `uint64(x)` conversion of an `int64` value. -/
def toUInt64 (x : Int) : Nat := (x % (2 : Int) ^ 64).toNat

/-- The eviction loop of the `file` variant's `keepTotalSizeCap`
(`for i := len(files)-1; i >= 0; i--`): the list argument is the scan
list reversed, i.e. oldest first.  Each round first checks
`uint64(totalSize) <= cap && (minFree == 0 || free >= minFree)` and
stops; otherwise it removes the entry — on success subtracting its size
from the running total and adding it to the free space, on failure
keeping the first error.  Returns the error and the deletions in order. -/
def evictLoop (cap minFree : Nat) (rmErr : LogInfo → Option String) :
    List LogInfo → Int → Nat → Option String → Option String × List LogInfo
  | [], _, _, err => (err, [])
  | f :: rest, total, free, err =>
      if toUInt64 total ≤ cap ∧ (minFree = 0 ∨ minFree ≤ free) then (err, [])
      else
        match rmErr f with
        | none =>
            let r := evictLoop cap minFree rmErr rest (total - (f.size : Int))
              (free + f.size) err
            (r.1, f :: r.2)
        | some e =>
            evictLoop cap minFree rmErr rest total free
              (if err = none then some e else err)

/-- `file.keepTotalSizeCap` (`TotalSizeCap` is `uint64` here): probe the
free space only when `MinDiskFree > 0` (the probed value is `free`);
return early when `TotalSizeCap <= 0 && (MinDiskFree == 0 ||
dirDiskFree >= MinDiskFree)`; otherwise rescan (the `files` input,
newest first), total the active size plus all backup sizes, and evict
oldest first.  The `Bool` reports whether the eviction pass ran. -/
def keepTotalSizeCap (cap minFree : Nat) (free : Nat) (activeSize : Int)
    (files : List LogInfo) (rmErr : LogInfo → Option String) :
    Option String × List LogInfo × Bool :=
  let dirFree := if 0 < minFree then free else 0
  if cap = 0 ∧ (minFree = 0 ∨ minFree ≤ dirFree) then (none, [], false)
  else
    let total : Int := activeSize + (((files.map LogInfo.size).sum : Nat) : Int)
    let r := evictLoop cap minFree rmErr files.reverse total dirFree none
    (r.1, r.2, true)

/-- The eviction loop of the `File` variant (`for _, f := range files`):
it walks the newest-first scan list from the front, with the plain
`int64` comparison `totalSize <= l.TotalSizeCap` in its stop check. -/
def evictLoopV2 (cap : Int) (minFree : Nat) (rmErr : LogInfo → Option String) :
    List LogInfo → Int → Nat → Option String → Option String × List LogInfo
  | [], _, _, err => (err, [])
  | f :: rest, total, free, err =>
      if total ≤ cap ∧ (minFree = 0 ∨ minFree ≤ free) then (err, [])
      else
        match rmErr f with
        | none =>
            let r := evictLoopV2 cap minFree rmErr rest (total - (f.size : Int))
              (free + f.size) err
            (r.1, f :: r.2)
        | some e =>
            evictLoopV2 cap minFree rmErr rest total free
              (if err = none then some e else err)

/-- The `File` variant's `keepTotalSizeCap` (`TotalSizeCap` is `int64`):
its guard returns early when `TotalSizeCap <= 0 || (MinDiskFree > 0 &&
dirDiskFree >= MinDiskFree)`, and its loop starts at the newest entry. -/
def keepTotalSizeCapV2 (cap : Int) (minFree : Nat) (free : Nat) (activeSize : Int)
    (files : List LogInfo) (rmErr : LogInfo → Option String) :
    Option String × List LogInfo × Bool :=
  let dirFree := if 0 < minFree then free else 0
  if cap ≤ 0 ∨ (0 < minFree ∧ minFree ≤ dirFree) then (none, [], false)
  else
    let total : Int := activeSize + (((files.map LogInfo.size).sum : Nat) : Int)
    let r := evictLoopV2 cap minFree rmErr files total dirFree none
    (r.1, r.2, true)

/-- The `Config` fields `millRunOnce` reads (`file` variant: the size
fields are `uint64`; the `int` count fields are naturals here, since the
guards treat nonpositive values as disabled). -/
structure MillConfig where
  maxBackups : Nat
  maxDays : Nat
  compress : Bool
  totalSizeCap : Nat
  minDiskFree : Nat
deriving Repr, DecidableEq

/-- What one mill pass did: the returned error, the entries removed and
compressed by the apply loops, whether the total-size/disk-free eviction
pass ran, and what it deleted. -/
structure MillOut where
  err : Option String
  removedOk : List LogInfo
  compressedOk : List LogInfo
  evictRan : Bool
  evictRemoved : List LogInfo
deriving Repr, DecidableEq

/-- `file.millRunOnce`: return immediately when `MaxBackups`, `MaxDays`
and `Compress` are all unset; otherwise scan (`files`, newest first),
mark count-cap then age-cap delete candidates, queue compression of the
surviving uncompressed entries when enabled, apply all removals then all
compressions keeping the first error, and finally run
`keepTotalSizeCap` against a fresh directory scan (`rescan`), adopting
its error only when none was seen before. -/
def millRunOnce (cfg : MillConfig) (now : Int) (files : List LogInfo)
    (free : Nat) (activeSize : Int) (rescan : List LogInfo)
    (rmErr cpErr : LogInfo → Option String) : MillOut :=
  if cfg.maxBackups = 0 ∧ cfg.maxDays = 0 ∧ cfg.compress = false then
    ⟨none, [], [], false, []⟩
  else
    let r1 := maxBackupsPhase cfg.maxBackups files
    let r2 := maxDaysPhase cfg.maxDays now r1.2
    let toRemove := r1.1 ++ r2.1
    let toCompress := if cfg.compress then r2.2.filter (fun f => f.gz = false) else []
    let a1 := runOps rmErr none toRemove
    let a2 := runOps cpErr a1.1 toCompress
    let k := keepTotalSizeCap cfg.totalSizeCap cfg.minDiskFree free activeSize rescan rmErr
    ⟨if a2.1 = none then k.1 else a2.1, a1.2, a2.2, k.2.2, k.2.1⟩

/-- `File.millRunOnce`: identical phase structure, with the `File`
variant's `keepTotalSizeCap` (different guard, newest-first eviction). -/
def millRunOnceV2 (maxB maxD : Nat) (cpr : Bool) (cap : Int) (minFree : Nat)
    (now : Int) (files : List LogInfo) (free : Nat) (activeSize : Int)
    (rescan : List LogInfo) (rmErr cpErr : LogInfo → Option String) : MillOut :=
  if maxB = 0 ∧ maxD = 0 ∧ cpr = false then
    ⟨none, [], [], false, []⟩
  else
    let r1 := maxBackupsPhase maxB files
    let r2 := maxDaysPhase maxD now r1.2
    let toRemove := r1.1 ++ r2.1
    let toCompress := if cpr then r2.2.filter (fun f => f.gz = false) else []
    let a1 := runOps rmErr none toRemove
    let a2 := runOps cpErr a1.1 toCompress
    let k := keepTotalSizeCapV2 cap minFree free activeSize rescan rmErr
    ⟨if a2.1 = none then k.1 else a2.1, a1.2, a2.2, k.2.2, k.2.1⟩

/-- The distinct timestamps of a union of a seen set and a scan list that
are strictly newer than `t` — the quantity that drives the count-cap
decision for an entry with timestamp `t`. -/
def newerCard (seen : List Int) (files : List LogInfo) (t : Int) : Nat :=
  ((seen.toFinset ∪ (files.map LogInfo.ts).toFinset).filter (fun u => t < u)).card

/-- The number of distinct backup timestamps in the scan strictly newer
than `t`: an entry is among the "K most recent logical backups" exactly
when this is below K for its timestamp. -/
def tsNewer (files : List LogInfo) (t : Int) : Nat :=
  (((files.map LogInfo.ts).toFinset).filter (fun u => t < u)).card

/-! ## Compressor -/

/-- OS outcomes of the fallible steps of `compressLogFile` (the source
open is determined by whether the source exists). -/
structure CompressSteps where
  statOk : Bool
  chownOk : Bool
  openDstOk : Bool
  copyOk : Bool
  gzCloseOk : Bool
  gzfCloseOk : Bool
  fCloseOk : Bool
  removeSrcOk : Bool
deriving Repr, DecidableEq

/-- The slice of the filesystem `compressLogFile` touches: existence of
source and destination, and the source's contents as an abstract token —
no step of the function writes to the source. -/
structure CompressFS where
  srcExists : Bool
  srcContent : Nat
  dstExists : Bool
deriving Repr, DecidableEq

/-- `compressLogFile src dst`: open the source (fails when absent), stat
it, chown the destination, create/truncate the destination, stream the
source through gzip, close the gzip writer, the destination file, and
the source, then remove the source.  The deferred cleanup installed
right after the gzip writer exists removes the destination whenever a
later step returns an error. -/
def compressLogFile (o : CompressSteps) (fs : CompressFS) :
    Option String × CompressFS :=
  if fs.srcExists = false then (some "failed to open log file", fs)
  else if o.statOk = false then (some "failed to stat log file", fs)
  else if o.chownOk = false then (some "failed to chown compressed log file", fs)
  else if o.openDstOk = false then (some "failed to open compressed log file", fs)
  else if o.copyOk = false then
    (some "failed to compress log file", { fs with dstExists := false })
  else if o.gzCloseOk = false then
    (some "failed to compress log file", { fs with dstExists := false })
  else if o.gzfCloseOk = false then
    (some "failed to compress log file", { fs with dstExists := false })
  else if o.fCloseOk = false then
    (some "failed to compress log file", { fs with dstExists := false })
  else if o.removeSrcOk = false then
    (some "failed to compress log file", { fs with dstExists := false })
  else (none, { fs with srcExists := false, dstExists := true })

end Rotatefile

namespace Rotatefile

/-- C9: with `MaxSize = 0` every size comparison uses the built-in
default of 104857600 bytes (100 MiB), not "unlimited"; a nonzero
configured value is used as is.  In particular an oversized write under
`MaxSize = 0` is rejected exactly above 104857600 bytes. -/
theorem maxSize_zero_uses_default (m : Nat) (hm : m ≠ 0) :
    maxBytes 0 = 104857600 ∧ maxBytes m = (m : Int) ∧
    (∀ (cErr : Bool) (s : RState) (p : Nat), 104857600 < (p : Int) →
      writeInternal 0 cErr s p = (.error "write length exceeds maximum file size", s)) := by
  refine ⟨by norm_num [maxBytes, defaultMaxSize], by simp [maxBytes, hm], ?_⟩
  intro cErr s p hp
  have : maxBytes 0 = 104857600 := by norm_num [maxBytes, defaultMaxSize]
  simp only [writeInternal, this]
  rw [if_pos hp]

/-- Witness for `maxSize_zero_uses_default` at `m = 7` and a concrete
oversized write. -/
theorem maxSize_zero_uses_default_witness :
    maxBytes 0 = 104857600 ∧ maxBytes 7 = (7 : Int) ∧
    (∀ (cErr : Bool) (s : RState) (p : Nat), 104857600 < (p : Int) →
      writeInternal 0 cErr s p = (.error "write length exceeds maximum file size", s)) :=
  maxSize_zero_uses_default 7 (by decide)

/-- In `file.writeInternal` a single write longer than the effective
maximum (the configured value, or the 100 MiB default when it is 0) is
rejected with an error and no bytes written, and the whole state — size
counter, handle, active file, backups — is returned unchanged. -/
theorem oversized_write_rejected (M : Nat) (cErr : Bool) (s : RState) (p : Nat)
    (h : maxBytes M < (p : Int)) :
    writeInternal M cErr s p = (.error "write length exceeds maximum file size", s) := by
  simp only [writeInternal]
  rw [if_pos h]

/-- Witness for `oversized_write_rejected`: `maxSize = 10`, a 11-byte
write against an open instance is rejected and the state is untouched. -/
theorem oversized_write_rejected_witness :
    writeInternal 10 false ⟨true, 4, some 4, [3], false⟩ 11 =
      (.error "write length exceeds maximum file size",
        ⟨true, 4, some 4, [3], false⟩) :=
  oversized_write_rejected 10 false ⟨true, 4, some 4, [3], false⟩ 11 (by decide)

/-- C2: `File.Write` with `CopyWriter` set — the default from `New()` on
a terminal — never returns at any depth of its unconditional
self-recursion (`if l.CopyWriter != nil { l.Write(p) }` precedes the
mutex and the length check), so an oversized write does not return the
documented error or leave state observable at all; with no copy writer,
and in the `file` variant (`writeInternal`), the oversized write is
rejected with 0 bytes written and the state unchanged, as claimed. -/
theorem write_copywriter_never_returns :
    (∀ (maxSize : Nat) (cErr : Bool) (p fuel : Nat) (s : RState),
      WriteV2 true maxSize cErr p fuel s = none) ∧
    WriteV2 false 10 false 11 1 ⟨true, 4, some 4, [3], false⟩ =
      some (.error "write length exceeds maximum file size",
        ⟨true, 4, some 4, [3], false⟩) := by
  constructor
  · intro M cErr p fuel s
    induction fuel with
    | zero => rfl
    | succ n ih => simp [WriteV2, ih]
  · rfl

/-- C1: a write of `n ≤ M` bytes against an open instance whose counter
would overflow `M` rotates first — the on-disk file (whose size is the
counter, the documented size invariant) becomes exactly one new backup of
size ≤ M, a fresh file is created, the counter resets, the mill engine is
notified — and then the entire write lands in the fresh file, whose size
is exactly the write length: the write is never split across two files. -/
theorem write_rotates_then_writes (M : Nat) (s : RState) (n : Nat)
    (hopen : s.handleOpen = true)
    (hinv : s.active = some s.size)
    (hfits : s.size ≤ maxBytes M)
    (htrig : maxBytes M < s.size + (n : Int))
    (hn : (n : Int) ≤ maxBytes M) :
    writeInternal M false s n =
      (.ok n, { handleOpen := true, size := (n : Int), active := some (n : Int),
                backups := s.size :: s.backups, milled := true }) ∧
    s.size ≤ maxBytes M := by
  refine ⟨?_, hfits⟩
  simp only [writeInternal]
  rw [if_neg (not_lt.mpr hn)]
  simp only [hopen, if_true]
  rw [if_pos htrig]
  simp [rotate, closeFile, openNew, notifyMill, hopen, hinv]

/-- Witness for `write_rotates_then_writes`: `maxSize = 100`, counter at
60, writing 60 more bytes rotates (one backup of 60 bytes) and then
writes all 60 bytes into the fresh file. -/
theorem write_rotates_then_writes_witness :
    writeInternal 100 false ⟨true, 60, some 60, [], false⟩ 60 =
      (.ok 60, ⟨true, 60, some 60, [60], true⟩) := by
  have h := write_rotates_then_writes 100 ⟨true, 60, some 60, [], false⟩ 60
    rfl rfl (by decide) (by decide) (by decide)
  simpa using h.1

/-- C10: forced rotation from the Closed state (no open handle) never
errors on the close step — even if an OS close would fail, none is
attempted — and still renames any existing file into a timestamped
backup, creates a fresh active file, resets the counter to 0, notifies
the mill engine and leaves the instance Open. -/
theorem rotate_from_closed (cErr : Bool) (s : RState)
    (h : s.handleOpen = false) :
    rotate cErr s =
      (none, { handleOpen := true, size := 0, active := some 0,
               backups := s.active.elim s.backups (fun sz => sz :: s.backups),
               milled := true }) := by
  cases s with
  | mk ho sz act bk mi =>
      subst h
      cases act <;> simp [rotate, closeFile, openNew, notifyMill]

/-- Witness for `rotate_from_closed`: a closed instance with an existing
7-byte file on disk rotates without error even when `cErr = true`. -/
theorem rotate_from_closed_witness :
    rotate true ⟨false, 0, some 7, [2], false⟩ =
      (none, ⟨true, 0, some 0, [7, 2], true⟩) := by
  have h := rotate_from_closed true ⟨false, 0, some 7, [2], false⟩ rfl
  simpa using h

/-! ### Codec lemmas -/

theorem num2_pad2 (n : Nat) (h : n ≤ 99) (r : Bytes) :
    num2 (pad2 n ++ r) = some (n, r) := by
  have hd : (isDigitByte (digitByte (n / 10 % 10)) &&
      isDigitByte (digitByte (n % 10))) = true := by
    simp [isDigitByte, digitByte]; omega
  simp only [pad2, List.cons_append, List.nil_append, num2]
  rw [if_pos hd]
  simp only [byteVal, digitByte, Option.some.injEq, Prod.mk.injEq, and_true]
  omega

theorem num3_pad3 (n : Nat) (h : n ≤ 999) (r : Bytes) :
    num3 (pad3 n ++ r) = some (n, r) := by
  have hd : (isDigitByte (digitByte (n / 100 % 10)) &&
      isDigitByte (digitByte (n / 10 % 10)) &&
      isDigitByte (digitByte (n % 10))) = true := by
    simp [isDigitByte, digitByte]; omega
  simp only [pad3, List.cons_append, List.nil_append, num3]
  rw [if_pos hd]
  simp only [byteVal, digitByte, Option.some.injEq, Prod.mk.injEq, and_true]
  omega

theorem num3_pad3_nil (n : Nat) (h : n ≤ 999) : num3 (pad3 n) = some (n, []) := by
  simpa using num3_pad3 n h []

theorem num4_pad4 (n : Nat) (h : n ≤ 9999) (r : Bytes) :
    num4 (pad4 n ++ r) = some (n, r) := by
  have hd : (isDigitByte (digitByte (n / 1000 % 10)) &&
      isDigitByte (digitByte (n / 100 % 10)) &&
      isDigitByte (digitByte (n / 10 % 10)) &&
      isDigitByte (digitByte (n % 10))) = true := by
    simp [isDigitByte, digitByte]; omega
  simp only [pad4, List.cons_append, List.nil_append, num4]
  rw [if_pos hd]
  simp only [byteVal, digitByte, Option.some.injEq, Prod.mk.injEq, and_true]
  omega

theorem litByte_self (x : Nat) (r : Bytes) : litByte x (x :: r) = some r := by
  simp [litByte]

theorem num2_sound {cs r : Bytes} {v : Nat} (h : num2 cs = some (v, r)) :
    cs = pad2 v ++ r ∧ v ≤ 99 := by
  match cs with
  | [] => simp [num2] at h
  | [a] => simp [num2] at h
  | a :: b :: tl =>
    simp only [num2] at h
    split at h
    · next hd =>
      simp only [Option.some.injEq, Prod.mk.injEq] at h
      obtain ⟨hv, ht⟩ := h
      simp only [isDigitByte, Bool.and_eq_true, decide_eq_true_eq] at hd
      subst ht
      refine ⟨?_, ?_⟩
      · simp only [pad2, digitByte, List.cons_append, List.nil_append,
          List.cons.injEq, and_true]
        simp only [byteVal] at hv
        omega
      · simp only [byteVal] at hv; omega
    · simp at h

theorem num3_sound {cs r : Bytes} {v : Nat} (h : num3 cs = some (v, r)) :
    cs = pad3 v ++ r ∧ v ≤ 999 := by
  match cs with
  | [] => simp [num3] at h
  | [a] => simp [num3] at h
  | [a, b] => simp [num3] at h
  | a :: b :: c :: tl =>
    simp only [num3] at h
    split at h
    · next hd =>
      simp only [Option.some.injEq, Prod.mk.injEq] at h
      obtain ⟨hv, ht⟩ := h
      simp only [isDigitByte, Bool.and_eq_true, decide_eq_true_eq] at hd
      subst ht
      refine ⟨?_, ?_⟩
      · simp only [pad3, digitByte, List.cons_append, List.nil_append,
          List.cons.injEq, and_true]
        simp only [byteVal] at hv
        omega
      · simp only [byteVal] at hv; omega
    · simp at h

theorem num4_sound {cs r : Bytes} {v : Nat} (h : num4 cs = some (v, r)) :
    cs = pad4 v ++ r ∧ v ≤ 9999 := by
  match cs with
  | [] => simp [num4] at h
  | [a] => simp [num4] at h
  | [a, b] => simp [num4] at h
  | [a, b, c] => simp [num4] at h
  | a :: b :: c :: d :: tl =>
    simp only [num4] at h
    split at h
    · next hd =>
      simp only [Option.some.injEq, Prod.mk.injEq] at h
      obtain ⟨hv, ht⟩ := h
      simp only [isDigitByte, Bool.and_eq_true, decide_eq_true_eq] at hd
      subst ht
      refine ⟨?_, ?_⟩
      · simp only [pad4, digitByte, List.cons_append, List.nil_append,
          List.cons.injEq, and_true]
        simp only [byteVal] at hv
        omega
      · simp only [byteVal] at hv; omega
    · simp at h

theorem litByte_sound {x : Nat} {cs r : Bytes} (h : litByte x cs = some r) :
    cs = x :: r := by
  match cs with
  | [] => simp [litByte] at h
  | b :: tl =>
    simp only [litByte] at h
    split at h
    · next hb => simp only [Option.some.injEq] at h; subst hb; subst h; rfl
    · simp at h

theorem daysInMonth_le (y m : Nat) : daysInMonth y m ≤ 31 := by
  unfold daysInMonth
  split_ifs <;> omega

theorem parseTs_formatTs (t : DateTime) (ht : t.Valid) :
    parseTs (formatTs t) = some t := by
  obtain ⟨h1, h2, h3, h4, h5, h6, h7, h8, h9⟩ := ht
  have hd31 := daysInMonth_le t.year t.month
  simp only [formatTs, parseTs, List.append_assoc, List.singleton_append,
    List.cons_append]
  rw [num4_pad4 t.year (by omega)]
  simp only [Option.bind_eq_bind, Option.some_bind, List.cons_append, List.append_assoc, List.nil_append]
  rw [num2_pad2 t.month (by omega)]
  simp only [Option.bind_eq_bind, Option.some_bind, List.cons_append, List.append_assoc, List.nil_append]
  rw [num2_pad2 t.day (by omega)]
  simp only [Option.bind_eq_bind, Option.some_bind, List.cons_append, List.append_assoc, List.nil_append]
  rw [litByte_self]
  simp only [Option.bind_eq_bind, Option.some_bind, List.cons_append, List.append_assoc, List.nil_append]
  rw [num2_pad2 t.hour (by omega)]
  simp only [Option.bind_eq_bind, Option.some_bind, List.cons_append, List.append_assoc, List.nil_append]
  rw [num2_pad2 t.minute (by omega)]
  simp only [Option.bind_eq_bind, Option.some_bind, List.cons_append, List.append_assoc, List.nil_append]
  rw [num2_pad2 t.sec (by omega)]
  simp only [Option.bind_eq_bind, Option.some_bind, List.cons_append, List.append_assoc, List.nil_append]
  rw [litByte_self]
  simp only [Option.bind_eq_bind, Option.some_bind, List.cons_append, List.append_assoc, List.nil_append]
  rw [num3_pad3_nil t.millis (by omega)]
  simp only [Option.bind_eq_bind, Option.some_bind]
  rw [if_pos]
  · rfl
  · exact ⟨by trivial, h2, h3, h4, h5, h6, h7, h8⟩

theorem parseTs_sound {cs : Bytes} {t : DateTime} (h : parseTs cs = some t) :
    cs = formatTs t ∧ t.Valid := by
  simp only [parseTs] at h
  cases e1 : num4 cs with
  | none => rw [e1] at h; simp at h
  | some p1 =>
  obtain ⟨y, r1⟩ := p1
  rw [e1] at h
  simp only [Option.bind_eq_bind, Option.some_bind] at h
  cases e2 : num2 r1 with
  | none => rw [e2] at h; simp at h
  | some p2 =>
  obtain ⟨mo, r2⟩ := p2
  rw [e2] at h
  simp only [Option.bind_eq_bind, Option.some_bind] at h
  cases e3 : num2 r2 with
  | none => rw [e3] at h; simp at h
  | some p3 =>
  obtain ⟨d, r3⟩ := p3
  rw [e3] at h
  simp only [Option.bind_eq_bind, Option.some_bind] at h
  cases e4 : litByte tByte r3 with
  | none => rw [e4] at h; simp at h
  | some r4 =>
  rw [e4] at h
  simp only [Option.bind_eq_bind, Option.some_bind] at h
  cases e5 : num2 r4 with
  | none => rw [e5] at h; simp at h
  | some p5 =>
  obtain ⟨hh, r5⟩ := p5
  rw [e5] at h
  simp only [Option.bind_eq_bind, Option.some_bind] at h
  cases e6 : num2 r5 with
  | none => rw [e6] at h; simp at h
  | some p6 =>
  obtain ⟨mi, r6⟩ := p6
  rw [e6] at h
  simp only [Option.bind_eq_bind, Option.some_bind] at h
  cases e7 : num2 r6 with
  | none => rw [e7] at h; simp at h
  | some p7 =>
  obtain ⟨ss, r7⟩ := p7
  rw [e7] at h
  simp only [Option.bind_eq_bind, Option.some_bind] at h
  cases e8 : litByte dotByte r7 with
  | none => rw [e8] at h; simp at h
  | some r8 =>
  rw [e8] at h
  simp only [Option.bind_eq_bind, Option.some_bind] at h
  cases e9 : num3 r8 with
  | none => rw [e9] at h; simp at h
  | some p9 =>
  obtain ⟨ms, r9⟩ := p9
  rw [e9] at h
  simp only [Option.bind_eq_bind, Option.some_bind] at h
  split at h
  · next hc =>
    obtain ⟨hnil, hmo1, hmo2, hd1, hd2, hhle, hmile, hsle⟩ := hc
    simp only [pure, Option.some.injEq] at h
    obtain ⟨hcs, hy⟩ := num4_sound e1
    obtain ⟨hr1, _⟩ := num2_sound e2
    obtain ⟨hr2, _⟩ := num2_sound e3
    have hr3 := litByte_sound e4
    obtain ⟨hr4, _⟩ := num2_sound e5
    obtain ⟨hr5, _⟩ := num2_sound e6
    obtain ⟨hr6, _⟩ := num2_sound e7
    have hr7 := litByte_sound e8
    obtain ⟨hr8, hms⟩ := num3_sound e9
    subst hnil hr8 hr7 hr6 hr5 hr4 hr3 hr2 hr1 hcs
    subst h
    constructor
    · simp [formatTs, List.append_assoc]
    · exact ⟨hy, hmo1, hmo2, hd1, hd2, hhle, hmile, hsle, hms⟩
  · simp at h

theorem timeFromName_sound {fn pfx ext : Bytes} {t : DateTime}
    (h : timeFromName fn pfx ext = some t) :
    fn = pfx ++ formatTs t ++ ext ∧ t.Valid := by
  simp only [timeFromName] at h
  split at h
  · simp at h
  next hsuf =>
  rw [not_not] at hsuf
  obtain ⟨u, hu⟩ := List.isSuffixOf_iff_suffix.mp hsuf
  subst hu
  have hlen1 : (u ++ ext).length - ext.length = u.length := by
    simp [List.length_append]
  rw [hlen1, List.take_left] at h
  split at h
  · simp at h
  next hpre =>
  rw [not_not] at hpre
  obtain ⟨v, hv⟩ := List.isPrefixOf_iff_prefix.mp hpre
  subst hv
  rw [List.drop_left] at h
  split at h
  · simp at h
  next hvlen =>
  obtain ⟨hfmt, hval⟩ := parseTs_sound h
  subst hfmt
  exact ⟨by simp [List.append_assoc], hval⟩

theorem timeFromName_backupName (name : Bytes) (t : DateTime) (ht : t.Valid) :
    timeFromName (backupName name t) (preOf name) (fileExt name) = some t := by
  have hfmt : parseTs (formatTs t) = some t := parseTs_formatTs t ht
  have hflen : (formatTs t).length = backupTimeFormat.length := by
    simp [formatTs, backupTimeFormat, pad2, pad3, pad4]
  have hshape : backupName name t = (preOf name ++ formatTs t) ++ fileExt name := by
    simp [backupName, preOf, List.append_assoc]
  have hsuf : (fileExt name).isSuffixOf ((preOf name ++ formatTs t) ++ fileExt name) = true :=
    List.isSuffixOf_iff_suffix.mpr ⟨preOf name ++ formatTs t, rfl⟩
  have hpre : (preOf name).isPrefixOf (preOf name ++ formatTs t) = true :=
    List.isPrefixOf_iff_prefix.mpr ⟨formatTs t, rfl⟩
  have hlen1 : ((preOf name ++ formatTs t) ++ fileExt name).length - (fileExt name).length
      = (preOf name ++ formatTs t).length := by
    simp only [List.length_append]; omega
  simp only [timeFromName, hshape]
  rw [if_neg (not_not_intro hsuf)]
  rw [hlen1, List.take_left]
  rw [if_neg (not_not_intro hpre)]
  rw [List.drop_left]
  rw [if_neg (by simp only [ne_eq, not_not]; exact hflen)]
  exact hfmt

/-- C7: the codec round-trips and is the only producer of decodable
names.  For every base filename and valid timestamp, decoding the backup
name produced by `backupName` with the prefix/extension of
`prefixAndExt` yields exactly that timestamp; and whenever
`timeFromName` succeeds, the name is exactly
`prefix ++ <19-byte timestamp> ++ ext` — any length, prefix, suffix or
parse mismatch was rejected (the same statement applied to
`ext ++ ".gz"` covers compressed backups). -/
theorem codec_roundtrip (name : Bytes) (t : DateTime) (ht : t.Valid) :
    timeFromName (backupName name t) (preOf name) (fileExt name) = some t ∧
    ∀ (fn pfx ext : Bytes) (u : DateTime), timeFromName fn pfx ext = some u →
      fn = pfx ++ formatTs u ++ ext ∧ u.Valid :=
  ⟨timeFromName_backupName name t ht, fun _ _ _ _ h => timeFromName_sound h⟩

/-- Witness for `codec_roundtrip`: base filename "foo.log" and the
timestamp 2016-11-04T18:30:00.000. -/
theorem codec_roundtrip_witness :
    timeFromName (backupName [102, 111, 111, 46, 108, 111, 103] ⟨2016, 11, 4, 18, 30, 0, 0⟩)
        (preOf [102, 111, 111, 46, 108, 111, 103])
        (fileExt [102, 111, 111, 46, 108, 111, 103]) =
      some ⟨2016, 11, 4, 18, 30, 0, 0⟩ ∧
    ∀ (fn pfx ext : Bytes) (u : DateTime), timeFromName fn pfx ext = some u →
      fn = pfx ++ formatTs u ++ ext ∧ u.Valid :=
  codec_roundtrip [102, 111, 111, 46, 108, 111, 103] ⟨2016, 11, 4, 18, 30, 0, 0⟩ (by decide)

/-! ### Compressor -/

/-- C8: if any step after the destination is created fails (the copy,
the gzip close, or either file close), the partial destination is
removed, an error is returned, and the source still exists with its
contents untouched; and the source is removed only when the compressed
file was fully written (copy), flushed (gzip close) and closed, with the
whole call succeeding. -/
theorem compress_never_loses_source (o : CompressSteps) (fs : CompressFS)
    (hsrc : fs.srcExists = true) :
    ((o.statOk = true ∧ o.chownOk = true ∧ o.openDstOk = true ∧
        ¬(o.copyOk = true ∧ o.gzCloseOk = true ∧ o.gzfCloseOk = true ∧
          o.fCloseOk = true)) →
      ((compressLogFile o fs).1.isSome = true ∧
       (compressLogFile o fs).2.dstExists = false ∧
       (compressLogFile o fs).2.srcExists = true ∧
       (compressLogFile o fs).2.srcContent = fs.srcContent)) ∧
    ((compressLogFile o fs).2.srcExists = false →
      (o.copyOk = true ∧ o.gzCloseOk = true ∧ o.gzfCloseOk = true ∧
       o.fCloseOk = true ∧ (compressLogFile o fs).1 = none)) := by
  obtain ⟨st, ch, od, cp, gz, gzf, fc, rm⟩ := o
  obtain ⟨se, sc, de⟩ := fs
  simp only at hsrc
  subst hsrc
  cases st <;> cases ch <;> cases od <;> cases cp <;> cases gz <;>
    cases gzf <;> cases fc <;> cases rm <;> simp [compressLogFile]

/-- Witness for `compress_never_loses_source`: a failure at the copy
step deletes the destination and keeps the 5-token source intact. -/
theorem compress_never_loses_source_witness :
    ((true = true ∧ true = true ∧ true = true ∧
        ¬(false = true ∧ true = true ∧ true = true ∧ true = true)) →
      ((compressLogFile ⟨true, true, true, false, true, true, true, true⟩
          ⟨true, 5, false⟩).1.isSome = true ∧
       (compressLogFile ⟨true, true, true, false, true, true, true, true⟩
          ⟨true, 5, false⟩).2.dstExists = false ∧
       (compressLogFile ⟨true, true, true, false, true, true, true, true⟩
          ⟨true, 5, false⟩).2.srcExists = true ∧
       (compressLogFile ⟨true, true, true, false, true, true, true, true⟩
          ⟨true, 5, false⟩).2.srcContent = (⟨true, 5, false⟩ : CompressFS).srcContent)) ∧
    ((compressLogFile ⟨true, true, true, false, true, true, true, true⟩
        ⟨true, 5, false⟩).2.srcExists = false →
      (false = true ∧ true = true ∧ true = true ∧ true = true ∧
       (compressLogFile ⟨true, true, true, false, true, true, true, true⟩
          ⟨true, 5, false⟩).1 = none)) :=
  compress_never_loses_source ⟨true, true, true, false, true, true, true, true⟩
    ⟨true, 5, false⟩ rfl

/-! ### Mill engine: apply loops and error accumulation -/

theorem runOps_spec (oracle : LogInfo → Option String) :
    ∀ (items : List LogInfo) (err0 : Option String),
      (runOps oracle err0 items).2 = items.filter (fun f => oracle f = none) ∧
      (runOps oracle err0 items).1 =
        (if err0 = none then firstSome (items.map oracle) else err0) := by
  intro items
  induction items with
  | nil => intro err0; cases err0 <;> simp [runOps, firstSome]
  | cons f rest ih =>
      intro err0
      simp only [runOps]
      cases he : oracle f with
      | none =>
          have h := ih err0
          simp only [he] at h ⊢
          simp [h.1, h.2, List.filter_cons, he, firstSome]
      | some e =>
          cases herr : err0 with
          | none =>
              have h := ih (some e)
              simp only [he] at h ⊢
              simp [h.1, h.2, List.filter_cons, he, firstSome]
          | some e0 =>
              have h := ih (some e0)
              simp only [he] at h ⊢
              simp [h.1, h.2, List.filter_cons, he, firstSome]

theorem firstSome_append (l1 l2 : List (Option String)) :
    firstSome (l1 ++ l2) =
      (if firstSome l1 = none then firstSome l2 else firstSome l1) := by
  induction l1 with
  | nil => simp [firstSome]
  | cons a rest ih =>
      cases a with
      | none => simpa [firstSome] using ih
      | some e => simp [firstSome]

/-- C5 counterexample: a mill pass whose two delete candidates both fail
(first with "remove error A", then with "remove error B") returns the
first error, not the last one as the claim states. -/
theorem mill_error_not_last_cex :
    (millRunOnce ⟨1, 0, false, 0, 0⟩ 0
        [⟨30, 1, false⟩, ⟨20, 1, false⟩, ⟨10, 1, false⟩] 0 0 []
        (fun f => if f.ts = 20 then some "remove error A" else some "remove error B")
        (fun _ => none)).err = some "remove error A" ∧
      "remove error A" ≠ "remove error B" := by
  constructor
  · rfl
  · decide

/-- C5 as amended: within one mill pass every delete candidate and every
compression candidate is attempted even when earlier candidates failed —
the successfully processed items are exactly those whose own operation
succeeds, independent of other failures — and the error reported for the
pass is the first (not last) failure among the removals, then the
compressions, then the total-size eviction step. -/
theorem mill_best_effort_first_error (cfg : MillConfig) (now : Int)
    (files : List LogInfo) (free : Nat) (activeSize : Int)
    (rescan : List LogInfo) (rmErr cpErr : LogInfo → Option String)
    (hgate : ¬(cfg.maxBackups = 0 ∧ cfg.maxDays = 0 ∧ cfg.compress = false)) :
    (millRunOnce cfg now files free activeSize rescan rmErr cpErr).removedOk =
      ((maxBackupsPhase cfg.maxBackups files).1 ++
       (maxDaysPhase cfg.maxDays now (maxBackupsPhase cfg.maxBackups files).2).1).filter
        (fun f => rmErr f = none) ∧
    (millRunOnce cfg now files free activeSize rescan rmErr cpErr).compressedOk =
      (if cfg.compress then
        ((maxDaysPhase cfg.maxDays now (maxBackupsPhase cfg.maxBackups files).2).2).filter
          (fun f => f.gz = false)
       else []).filter (fun f => cpErr f = none) ∧
    (millRunOnce cfg now files free activeSize rescan rmErr cpErr).err =
      (if firstSome
          (((maxBackupsPhase cfg.maxBackups files).1 ++
            (maxDaysPhase cfg.maxDays now (maxBackupsPhase cfg.maxBackups files).2).1).map rmErr ++
           (if cfg.compress then
              ((maxDaysPhase cfg.maxDays now (maxBackupsPhase cfg.maxBackups files).2).2).filter
                (fun f => f.gz = false)
            else []).map cpErr) = none
       then (keepTotalSizeCap cfg.totalSizeCap cfg.minDiskFree free activeSize rescan rmErr).1
       else firstSome
          (((maxBackupsPhase cfg.maxBackups files).1 ++
            (maxDaysPhase cfg.maxDays now (maxBackupsPhase cfg.maxBackups files).2).1).map rmErr ++
           (if cfg.compress then
              ((maxDaysPhase cfg.maxDays now (maxBackupsPhase cfg.maxBackups files).2).2).filter
                (fun f => f.gz = false)
            else []).map cpErr)) := by
  simp only [millRunOnce, if_neg hgate]
  obtain ⟨ha1, he1⟩ := runOps_spec rmErr
    ((maxBackupsPhase cfg.maxBackups files).1 ++
     (maxDaysPhase cfg.maxDays now (maxBackupsPhase cfg.maxBackups files).2).1) none
  obtain ⟨ha2, he2⟩ := runOps_spec cpErr
    (if cfg.compress then
      ((maxDaysPhase cfg.maxDays now (maxBackupsPhase cfg.maxBackups files).2).2).filter
        (fun f => f.gz = false)
     else [])
    (runOps rmErr none
      ((maxBackupsPhase cfg.maxBackups files).1 ++
       (maxDaysPhase cfg.maxDays now (maxBackupsPhase cfg.maxBackups files).2).1)).1
  refine ⟨ha1, ha2, ?_⟩
  rw [he2, he1, firstSome_append]
  simp

/-- Witness for `mill_best_effort_first_error` at a concrete pass with
one failing and one succeeding removal. -/
theorem mill_best_effort_first_error_witness :
    (millRunOnce ⟨1, 0, false, 0, 0⟩ 0
        [⟨30, 1, false⟩, ⟨20, 1, false⟩, ⟨10, 1, false⟩] 0 0 []
        (fun f => if f.ts = 20 then some "boom" else none)
        (fun _ => none)).removedOk =
      ((maxBackupsPhase 1 [⟨30, 1, false⟩, ⟨20, 1, false⟩, ⟨10, 1, false⟩]).1 ++
       (maxDaysPhase 0 0 (maxBackupsPhase 1
          [⟨30, 1, false⟩, ⟨20, 1, false⟩, ⟨10, 1, false⟩]).2).1).filter
        (fun f => (if f.ts = 20 then some "boom" else none) = none) ∧
    (millRunOnce ⟨1, 0, false, 0, 0⟩ 0
        [⟨30, 1, false⟩, ⟨20, 1, false⟩, ⟨10, 1, false⟩] 0 0 []
        (fun f => if f.ts = 20 then some "boom" else none)
        (fun _ => none)).compressedOk =
      (if (⟨1, 0, false, 0, 0⟩ : MillConfig).compress then
        ((maxDaysPhase 0 0 (maxBackupsPhase 1
            [⟨30, 1, false⟩, ⟨20, 1, false⟩, ⟨10, 1, false⟩]).2).2).filter
          (fun f => f.gz = false)
       else []).filter (fun f => (fun _ : LogInfo => (none : Option String)) f = none) ∧
    (millRunOnce ⟨1, 0, false, 0, 0⟩ 0
        [⟨30, 1, false⟩, ⟨20, 1, false⟩, ⟨10, 1, false⟩] 0 0 []
        (fun f => if f.ts = 20 then some "boom" else none)
        (fun _ => none)).err =
      (if firstSome
          (((maxBackupsPhase 1 [⟨30, 1, false⟩, ⟨20, 1, false⟩, ⟨10, 1, false⟩]).1 ++
            (maxDaysPhase 0 0 (maxBackupsPhase 1
               [⟨30, 1, false⟩, ⟨20, 1, false⟩, ⟨10, 1, false⟩]).2).1).map
              (fun f => if f.ts = 20 then some "boom" else none) ++
           (if (⟨1, 0, false, 0, 0⟩ : MillConfig).compress then
              ((maxDaysPhase 0 0 (maxBackupsPhase 1
                  [⟨30, 1, false⟩, ⟨20, 1, false⟩, ⟨10, 1, false⟩]).2).2).filter
                (fun f => f.gz = false)
            else []).map (fun _ : LogInfo => (none : Option String))) = none
       then (keepTotalSizeCap 0 0 0 0 [] (fun f => if f.ts = 20 then some "boom" else none)).1
       else firstSome
          (((maxBackupsPhase 1 [⟨30, 1, false⟩, ⟨20, 1, false⟩, ⟨10, 1, false⟩]).1 ++
            (maxDaysPhase 0 0 (maxBackupsPhase 1
               [⟨30, 1, false⟩, ⟨20, 1, false⟩, ⟨10, 1, false⟩]).2).1).map
              (fun f => if f.ts = 20 then some "boom" else none) ++
           (if (⟨1, 0, false, 0, 0⟩ : MillConfig).compress then
              ((maxDaysPhase 0 0 (maxBackupsPhase 1
                  [⟨30, 1, false⟩, ⟨20, 1, false⟩, ⟨10, 1, false⟩]).2).2).filter
                (fun f => f.gz = false)
            else []).map (fun _ : LogInfo => (none : Option String)))) :=
  mill_best_effort_first_error ⟨1, 0, false, 0, 0⟩ 0
    [⟨30, 1, false⟩, ⟨20, 1, false⟩, ⟨10, 1, false⟩] 0 0 []
    (fun f => if f.ts = 20 then some "boom" else none) (fun _ => none)
    (by decide)

/-! ### Mill engine: the total-size / disk-free gate -/

/-- C4 counterexample: with `totalSizeCap = 5 > 0` but `maxBackups`,
`maxDays` and `compress` all unset, `millRunOnce` returns before the
total-size/disk-free eviction step, so the step does not run even though
the claimed condition holds and a backup exceeds the cap. -/
theorem evict_gate_cex :
    (0 : Nat) < 5 ∧
    (millRunOnce ⟨0, 0, false, 5, 0⟩ 0 [⟨10, 30, false⟩] 0 0 [⟨10, 30, false⟩]
        (fun _ => none) (fun _ => none)).evictRan = false ∧
    (millRunOnce ⟨0, 0, false, 5, 0⟩ 0 [⟨10, 30, false⟩] 0 0 [⟨10, 30, false⟩]
        (fun _ => none) (fun _ => none)).evictRemoved = [] := by
  refine ⟨by decide, rfl, rfl⟩

/-- C4 as amended: the total-size/disk-free eviction step runs iff the
mill pass runs at all — at least one of `maxBackups > 0`, `maxDays > 0`,
`compress` is set — and its own guard passes: in the `file` variant
`totalSizeCap > 0` or (`minDiskFree > 0` and free space below it); in
the `File` variant `totalSizeCap > 0` and (`minDiskFree = 0` or free
space below it). -/
theorem evict_gate_iff (cfg : MillConfig) (cap : Int)
    (maxB maxD : Nat) (cpr : Bool) (minFree : Nat) (now : Int)
    (files : List LogInfo) (free : Nat) (activeSize : Int)
    (rescan : List LogInfo) (rmErr cpErr : LogInfo → Option String) :
    ((millRunOnce cfg now files free activeSize rescan rmErr cpErr).evictRan = true ↔
      (¬(cfg.maxBackups = 0 ∧ cfg.maxDays = 0 ∧ cfg.compress = false) ∧
       (cfg.totalSizeCap ≠ 0 ∨ (cfg.minDiskFree ≠ 0 ∧ free < cfg.minDiskFree)))) ∧
    ((millRunOnceV2 maxB maxD cpr cap minFree now files free activeSize rescan
        rmErr cpErr).evictRan = true ↔
      (¬(maxB = 0 ∧ maxD = 0 ∧ cpr = false) ∧
       (0 < cap ∧ (minFree = 0 ∨ free < minFree)))) := by
  constructor
  · by_cases hg : cfg.maxBackups = 0 ∧ cfg.maxDays = 0 ∧ cfg.compress = false
    · simp [millRunOnce, hg]
    · simp only [millRunOnce, if_neg hg, keepTotalSizeCap]
      split_ifs with hd hc
      all_goals simp_all
      all_goals omega
  · by_cases hg : maxB = 0 ∧ maxD = 0 ∧ cpr = false
    · simp [millRunOnceV2, hg]
    · simp only [millRunOnceV2, if_neg hg, keepTotalSizeCapV2]
      split_ifs with hd hc
      all_goals simp_all
      all_goals omega

/-! ### Mill engine: total-size eviction order (the two variants) -/

/-- C3: the `File` variant deletes the **newest** backup first.  With
`totalSizeCap = 50`, no disk floor, an empty active file and two 40-byte
backups (timestamps 2 and 1, newest first), the code deletes the backup
with timestamp 2 and keeps the older one; deleting oldest-first, as the
claim and the function's own comment state, would have removed timestamp
1 and kept 2.  Additionally the `file` variant, reached with
`totalSizeCap = 0` through the disk-free path (`minDiskFree = 100`,
free = 95), deletes **every** backup — `uint64(totalSize) <= 0` never
holds — instead of stopping once free space reaches the floor after the
first deletion. -/
theorem evict_order_divergence :
    keepTotalSizeCapV2 50 0 0 0 [⟨2, 40, false⟩, ⟨1, 40, false⟩] (fun _ => none) =
      (none, [⟨2, 40, false⟩], true) ∧
    keepTotalSizeCap 0 100 95 0 [⟨2, 60, false⟩, ⟨1, 10, false⟩] (fun _ => none) =
      (none, [⟨1, 10, false⟩, ⟨2, 60, false⟩], true) ∧
    95 + 10 ≥ 100 := by
  refine ⟨rfl, ?_, by decide⟩
  rfl

/-! ### Mill engine: the count cap -/

/-- The marking loop characterized: on a newest-first list, an entry is
marked for removal exactly when at least `K` distinct timestamps — drawn
from the already-seen set and the scan — are strictly newer than its
own. -/
theorem markBackups_eq (K : Nat) :
    ∀ (rest : List LogInfo) (seen : List Int),
      seen.Nodup →
      List.Pairwise (fun a b => b.ts ≤ a.ts) rest →
      (∀ g ∈ rest, ∀ u ∈ seen, g.ts ≤ u) →
      markBackups K seen rest =
        (rest.filter (fun f => K ≤ newerCard seen rest f.ts),
         rest.filter (fun f => newerCard seen rest f.ts < K)) := by
  intro rest
  induction rest with
  | nil => intro seen _ _ _; simp [markBackups]
  | cons f rest ih =>
    intro seen hnd hsort hge
    rw [List.pairwise_cons] at hsort
    obtain ⟨hfr, hsort2⟩ := hsort
    have hgef : ∀ u ∈ seen, f.ts ≤ u := hge f (List.mem_cons_self f rest)
    have hins : (if f.ts ∈ seen then seen else f.ts :: seen).toFinset
        = insert f.ts seen.toFinset := by
      split_ifs with h
      · exact (Finset.insert_eq_self.mpr (List.mem_toFinset.mpr h)).symm
      · simp [List.toFinset_cons]
    have hnd2 : (if f.ts ∈ seen then seen else f.ts :: seen).Nodup := by
      split_ifs with h
      · exact hnd
      · exact List.nodup_cons.mpr ⟨h, hnd⟩
    have hge2 : ∀ g ∈ rest, ∀ u ∈ (if f.ts ∈ seen then seen else f.ts :: seen),
        g.ts ≤ u := by
      intro g hg u hu
      split_ifs at hu with h
      · exact hge g (List.mem_cons_of_mem f hg) u hu
      · rcases List.mem_cons.mp hu with rfl | hu
        · exact hfr g hg
        · exact hge g (List.mem_cons_of_mem f hg) u hu
    have hrec := ih (if f.ts ∈ seen then seen else f.ts :: seen) hnd2 hsort2 hge2
    have hsets : ∀ t, newerCard (if f.ts ∈ seen then seen else f.ts :: seen) rest t
        = newerCard seen (f :: rest) t := by
      intro t
      unfold newerCard
      have husame : (if f.ts ∈ seen then seen else f.ts :: seen).toFinset
            ∪ (rest.map LogInfo.ts).toFinset
          = seen.toFinset ∪ ((f :: rest).map LogInfo.ts).toFinset := by
        rw [hins]
        ext u
        simp only [Finset.mem_union, Finset.mem_insert, List.mem_toFinset,
          List.map_cons, List.mem_cons]
        tauto
      rw [husame]
    have hlen2 : (if f.ts ∈ seen then seen else f.ts :: seen).length
        = newerCard seen (f :: rest) f.ts + 1 := by
      have h1 : (if f.ts ∈ seen then seen else f.ts :: seen).length
          = (insert f.ts seen.toFinset).card := by
        rw [← hins]
        exact (List.toFinset_card_of_nodup hnd2).symm
      have hfilt : (insert f.ts seen.toFinset).filter (fun u => f.ts < u)
          = (seen.toFinset ∪ ((f :: rest).map LogInfo.ts).toFinset).filter
              (fun u => f.ts < u) := by
        ext u
        simp only [Finset.mem_filter, Finset.mem_insert, Finset.mem_union,
          List.mem_toFinset, List.mem_map, List.mem_cons]
        constructor
        · rintro ⟨rfl | hu, hlt⟩
          · omega
          · exact ⟨Or.inl hu, hlt⟩
        · rintro ⟨hu | ⟨g, hg, rfl⟩, hlt⟩
          · exact ⟨Or.inr hu, hlt⟩
          · rcases hg with rfl | hg
            · omega
            · have := hfr g hg
              omega
      have hneg : (insert f.ts seen.toFinset).filter (fun u => ¬ f.ts < u)
          = {f.ts} := by
        ext u
        simp only [Finset.mem_filter, Finset.mem_insert, Finset.mem_singleton,
          List.mem_toFinset]
        constructor
        · rintro ⟨rfl | hu, hnlt⟩
          · rfl
          · have := hgef u (List.mem_toFinset.mp (by simpa using hu))
            omega
        · rintro rfl
          exact ⟨Or.inl rfl, by omega⟩
      have hpart := Finset.filter_card_add_filter_neg_card_eq_card
        (s := insert f.ts seen.toFinset) (p := fun u => f.ts < u)
      rw [hfilt, hneg] at hpart
      unfold newerCard
      rw [h1, ← hpart]
      simp
    simp only [markBackups]
    rw [hrec]
    simp only [hsets]
    by_cases hdec : K ≤ newerCard seen (f :: rest) f.ts
    · rw [if_pos (by omega)]
      simp only [List.filter_cons]
      rw [if_pos (by simpa using hdec),
        if_neg (by simp only [decide_eq_true_eq]; omega)]
    · rw [if_neg (by omega)]
      simp only [List.filter_cons]
      rw [if_neg (by simp only [decide_eq_true_eq]; omega),
        if_pos (by simp only [decide_eq_true_eq]; omega)]

/-- Order statistics on a finite set of timestamps: the elements with
fewer than `K` strictly larger elements are exactly the top `K`, so
there are `min K |S|` of them. -/
theorem card_filter_rank_lt (S : Finset Int) : ∀ (K : Nat),
    (S.filter (fun t => (S.filter (fun u => t < u)).card < K)).card
      = min K S.card := by
  induction S using Finset.strongInductionOn with
  | _ S ih =>
    intro K
    rcases eq_or_ne S ∅ with rfl | hne
    · simp
    · have hSne : S.Nonempty := Finset.nonempty_iff_ne_empty.mpr hne
      cases K with
      | zero => simp
      | succ K =>
        have hmS : S.max' hSne ∈ S := S.max'_mem hSne
        have herase : S.erase (S.max' hSne) ⊂ S := Finset.erase_ssubset hmS
        have hIH := ih (S.erase (S.max' hSne)) herase K
        have hrank : ∀ t ∈ S.erase (S.max' hSne),
            (S.filter (fun u => t < u)).card
              = ((S.erase (S.max' hSne)).filter (fun u => t < u)).card + 1 := by
          intro t ht
          have h1 : t ∈ S := Finset.mem_of_mem_erase ht
          have h2 : t ≠ S.max' hSne := Finset.ne_of_mem_erase ht
          have htm : t < S.max' hSne := lt_of_le_of_ne (S.le_max' t h1) h2
          have hsplit : S.filter (fun u => t < u)
              = insert (S.max' hSne)
                  ((S.erase (S.max' hSne)).filter (fun u => t < u)) := by
            ext u
            simp only [Finset.mem_filter, Finset.mem_insert, Finset.mem_erase]
            constructor
            · rintro ⟨huS, htu⟩
              by_cases hum : u = S.max' hSne
              · exact Or.inl hum
              · exact Or.inr ⟨⟨hum, huS⟩, htu⟩
            · rintro (rfl | ⟨⟨hum, huS⟩, htu⟩)
              · exact ⟨hmS, htm⟩
              · exact ⟨huS, htu⟩
          rw [hsplit, Finset.card_insert_of_not_mem (by simp)]
        have hrm : (S.filter (fun u => S.max' hSne < u)).card = 0 := by
          rw [Finset.card_eq_zero, Finset.filter_eq_empty_iff]
          intro x hx
          exact not_lt.mpr (S.le_max' x hx)
        have hmain : S.filter (fun t => (S.filter (fun u => t < u)).card < K + 1)
            = insert (S.max' hSne)
                ((S.erase (S.max' hSne)).filter
                  (fun t => ((S.erase (S.max' hSne)).filter
                      (fun u => t < u)).card < K)) := by
          ext t
          simp only [Finset.mem_filter, Finset.mem_insert, Finset.mem_erase]
          constructor
          · rintro ⟨htS, hcard⟩
            by_cases htm : t = S.max' hSne
            · exact Or.inl htm
            · refine Or.inr ⟨⟨htm, htS⟩, ?_⟩
              have := hrank t (Finset.mem_erase.mpr ⟨htm, htS⟩)
              omega
          · rintro (rfl | ⟨⟨htm, htS⟩, hcard⟩)
            · exact ⟨hmS, by rw [hrm]; omega⟩
            · refine ⟨htS, ?_⟩
              have := hrank t (Finset.mem_erase.mpr ⟨htm, htS⟩)
              omega
        rw [hmain, Finset.card_insert_of_not_mem (by simp), hIH,
          Finset.card_erase_of_mem hmS]
        have hpos : 1 ≤ S.card := Finset.card_pos.mpr hSne
        omega

/-- C6: with `maxBackups = K > 0` and the scan sorted newest first, the
count-cap step marks for deletion exactly the entries with at least `K`
distinct strictly-newer timestamps — i.e. everything beyond the `K` most
recent logical backups, where a backup and its `.gz` counterpart share a
timestamp and hence a slot — and keeps exactly the entries within the
`K` most recent, so after a settled pass `min K (number of logical
backups)` logical backups remain, the most recent ones. -/
theorem count_cap_keeps_k_most_recent (K : Nat) (files : List LogInfo)
    (hK : 0 < K)
    (hs : List.Pairwise (fun a b => b.ts ≤ a.ts) files) :
    (maxBackupsPhase K files).1 = files.filter (fun f => K ≤ tsNewer files f.ts) ∧
    (maxBackupsPhase K files).2 = files.filter (fun f => tsNewer files f.ts < K) ∧
    (((maxBackupsPhase K files).2.map LogInfo.ts).toFinset).card
      = min K ((files.map LogInfo.ts).toFinset).card := by
  have hnc : ∀ t, newerCard [] files t = tsNewer files t := by
    intro t; simp [newerCard, tsNewer]
  have hcard_le : ((files.map LogInfo.ts).toFinset).card ≤ files.length := by
    calc ((files.map LogInfo.ts).toFinset).card ≤ (files.map LogInfo.ts).length :=
          (files.map LogInfo.ts).toFinset_card_le
      _ = files.length := by simp
  by_cases hlen : K < files.length
  · have hmark := markBackups_eq K files [] (by simp) hs (by simp)
    simp only [hnc] at hmark
    have hphase : maxBackupsPhase K files =
        (files.filter (fun f => K ≤ tsNewer files f.ts),
         files.filter (fun f => tsNewer files f.ts < K)) := by
      rw [maxBackupsPhase, if_pos ⟨hK, hlen⟩, hmark]
    refine ⟨by rw [hphase], by rw [hphase], ?_⟩
    rw [hphase]
    have hset : ((files.filter (fun f => tsNewer files f.ts < K)).map
          LogInfo.ts).toFinset
        = ((files.map LogInfo.ts).toFinset).filter
            (fun t => (((files.map LogInfo.ts).toFinset).filter
                (fun u => t < u)).card < K) := by
      ext t
      simp only [List.mem_toFinset, List.mem_map, List.mem_filter,
        Finset.mem_filter, decide_eq_true_eq]
      constructor
      · rintro ⟨f, ⟨hf, hP⟩, rfl⟩
        exact ⟨⟨f, hf, rfl⟩, by simpa [tsNewer] using hP⟩
      · rintro ⟨⟨f, hf, rfl⟩, hc⟩
        exact ⟨f, ⟨hf, by simpa [tsNewer] using hc⟩, rfl⟩
    rw [hset, card_filter_rank_lt]
  · have hphase : maxBackupsPhase K files = ([], files) := by
      rw [maxBackupsPhase, if_neg (by omega)]
    have hall : ∀ f ∈ files, tsNewer files f.ts < K := by
      intro f hf
      have h1 : f.ts ∈ (files.map LogInfo.ts).toFinset := by
        simp only [List.mem_toFinset, List.mem_map]
        exact ⟨f, hf, rfl⟩
      have h2 : ((files.map LogInfo.ts).toFinset).filter (fun u => f.ts < u)
          ⊂ (files.map LogInfo.ts).toFinset := by
        refine ⟨Finset.filter_subset _ _, fun hsub => ?_⟩
        have := hsub h1
        simp at this
      have h3 := Finset.card_lt_card h2
      unfold tsNewer
      omega
    refine ⟨?_, ?_, ?_⟩
    · rw [hphase]
      symm
      rw [List.filter_eq_nil_iff]
      intro f hf
      simp only [decide_eq_true_eq]
      have := hall f hf
      omega
    · rw [hphase]
      symm
      rw [List.filter_eq_self]
      intro f hf
      simp only [decide_eq_true_eq]
      exact hall f hf
    · rw [hphase]
      show ((files.map LogInfo.ts).toFinset).card = _
      have hle : ((files.map LogInfo.ts).toFinset).card ≤ K := by omega
      omega

/-- Witness for `count_cap_keeps_k_most_recent`: four backups, three
logical ones (the two entries at timestamp 30 are an uncompressed/
compressed pair), `K = 2`: the pair and timestamp 20 survive, timestamp
10 is marked for removal, and 2 logical backups remain. -/
theorem count_cap_keeps_k_most_recent_witness :
    (maxBackupsPhase 2 [⟨30, 5, false⟩, ⟨30, 4, true⟩, ⟨20, 3, false⟩,
        ⟨10, 2, false⟩]).1 =
      [⟨30, 5, false⟩, ⟨30, 4, true⟩, ⟨20, 3, false⟩, ⟨10, 2, false⟩].filter
        (fun f => 2 ≤ tsNewer [⟨30, 5, false⟩, ⟨30, 4, true⟩, ⟨20, 3, false⟩,
          ⟨10, 2, false⟩] f.ts) ∧
    (maxBackupsPhase 2 [⟨30, 5, false⟩, ⟨30, 4, true⟩, ⟨20, 3, false⟩,
        ⟨10, 2, false⟩]).2 =
      [⟨30, 5, false⟩, ⟨30, 4, true⟩, ⟨20, 3, false⟩, ⟨10, 2, false⟩].filter
        (fun f => tsNewer [⟨30, 5, false⟩, ⟨30, 4, true⟩, ⟨20, 3, false⟩,
          ⟨10, 2, false⟩] f.ts < 2) ∧
    (((maxBackupsPhase 2 [⟨30, 5, false⟩, ⟨30, 4, true⟩, ⟨20, 3, false⟩,
        ⟨10, 2, false⟩]).2.map LogInfo.ts).toFinset).card =
      min 2 (([⟨30, 5, false⟩, ⟨30, 4, true⟩, ⟨20, 3, false⟩,
        ⟨10, 2, false⟩].map LogInfo.ts).toFinset).card :=
  count_cap_keeps_k_most_recent 2
    [⟨30, 5, false⟩, ⟨30, 4, true⟩, ⟨20, 3, false⟩, ⟨10, 2, false⟩]
    (by decide) (by decide)

end Rotatefile
